import Mathlib

/-!
Verification of the `fix-onconnected.py` patcher.

The program is a one-shot batch editor: for a fixed list of three
(file path, identifier) pairs it reads the file, performs a global
`re.sub` of a fixed multi-line pattern by an identifier-parameterized
replacement, writes the file back and prints one confirmation line per
file plus a final summary line.

The embedding below models:
  * the regex fragment actually used: the pattern of the script escapes
    every regex metacharacter it contains, so it denotes a literal
    multi-line string; `literalOfPattern` compiles exactly that fragment
    (escaped metacharacters and plain non-metacharacters) and is applied
    to the verbatim pattern source `old_pattern_src`;
  * Python's replacement-template rules for the fragment used: a template
    without a backslash is inserted verbatim (`expandTmpl`);
  * global leftmost non-overlapping substitution (`replaceAll`), which is
    what `re.sub` performs for a literal nonempty pattern;
  * the filesystem as an association list from paths to contents, and the
    run of the script as `runFrom`, which records an event trace
    (reads, writes, prints) and halts on a failed read, mirroring the
    uncaught `IOError` of `open` on a missing file.
-/

/-! ## Generic list machinery -/

variable {α : Type} [DecidableEq α]

/-- Boolean prefix test on lists. -/
def isPref : List α → List α → Bool
  | [], _ => true
  | _ :: _, [] => false
  | a :: as, b :: bs => if a = b then isPref as bs else false

/-- Global leftmost non-overlapping replacement of `pat` by `repl`,
the semantics of `re.sub` for a literal nonempty pattern: scan left to
right; on a match, emit `repl` and continue after the matched block;
otherwise keep one element and continue. -/
def replaceAll (pat repl : List α) : List α → List α
  | [] => []
  | a :: s =>
    if pat <+: (a :: s) then repl ++ replaceAll pat repl (s.drop (pat.length - 1))
    else a :: replaceAll pat repl s
termination_by s => s.length
decreasing_by
  · simp [List.length_drop]; omega
  · simp

/-- Number of positions at which `pat` matches. -/
def countOcc (pat : List α) : List α → Nat
  | [] => 0
  | a :: s => (if pat <+: (a :: s) then 1 else 0) + countOcc pat s

/-- Check that no nonempty suffix of `xs` of length below `bound` is a
prefix of `target`. -/
def overlapFree (xs target : List α) (bound : Nat) : Bool :=
  xs.tails.all fun c => c.isEmpty || !(isPref c target) || Nat.ble bound c.length

/-- Check that `pat` occurs nowhere inside `xs`. -/
def infixFree (pat xs : List α) : Bool :=
  xs.tails.all fun c => !(isPref pat c)

/-! ## The regex fragment used by the script -/

def backslashChar : Char := '\\'

/-- Metacharacters of Python regular expressions. -/
def metachars : List Char :=
  ['.', '^', '$', '*', '+', '?', '[', ']', '(', ')', '|', '\x7b', '\x7d', '\\']

/-- Compile a pattern of the fragment the script stays in: an escaped
metacharacter denotes itself literally, a plain non-metacharacter denotes
itself, and anything else (an unescaped metacharacter, an escape of a
non-metacharacter, a trailing backslash) is outside the fragment. -/
def literalOfPattern : List Char → Option (List Char)
  | [] => some []
  | c :: rest =>
    if c = backslashChar then
      match rest with
      | [] => none
      | d :: rest' => if d ∈ metachars then (literalOfPattern rest').map (d :: ·) else none
    else if c ∈ metachars then none
    else (literalOfPattern rest).map (c :: ·)

/-- Expansion of a `re.sub` replacement template: a template containing no
backslash has no group references or escapes and is inserted verbatim. -/
def expandTmpl (t : List Char) : Option (List Char) :=
  if backslashChar ∈ t then none else some t

/-- Model of `re.sub(patSrc, tmpl, s)` on the fragment used by the script:
compile the pattern to a literal, expand the template, and perform global
substitution. -/
def reSub (patSrc tmpl s : List Char) : Option (List Char) :=
  match literalOfPattern patSrc, expandTmpl tmpl with
  | some lit, some r => if lit.isEmpty then none else some (replaceAll lit r s)
  | _, _ => none

/-! ## The fixed texts of the script -/

/-- Verbatim source of `old_pattern` (lines 10-17 of the script). -/
def old_pattern_src : String :=
  "                chatClient\\.onConnected = \\(data\\) => \\\x7b\n" ++
  "                    console\\.log\\('✓ Connected to agent:', data\\);\n" ++
  "                    // Capture conversationId from backend\n" ++
  "                    if \\(data\\.conversationId && !conversationId\\) \\\x7b\n" ++
  "                        conversationId = data\\.conversationId;\n" ++
  "                        console\\.log\\('✓ Captured conversationId from backend:', conversationId\\);\n" ++
  "                    \\\x7d\n" ++
  "                \\\x7d;"

/-- The literal string denoted by `old_pattern`: the same eight lines with
the regex escapes removed. -/
def old_literal : String :=
  "                chatClient.onConnected = (data) => \x7b\n" ++
  "                    console.log('✓ Connected to agent:', data);\n" ++
  "                    // Capture conversationId from backend\n" ++
  "                    if (data.conversationId && !conversationId) \x7b\n" ++
  "                        conversationId = data.conversationId;\n" ++
  "                        console.log('✓ Captured conversationId from backend:', conversationId);\n" ++
  "                    \x7d\n" ++
  "                \x7d;"

/-- The f-string `new_callback` of the script (lines 23-38), parameterized
by the iteration's `agent_name`, with `\x7b\x7b`/`\x7d\x7d` of the f-string
denoting literal braces. -/
def new_callback (agent_name : String) : String :=
  "                chatClient.onConnected = (data) => \x7b\n" ++
  "                    console.log('✓ Connected to agent:', data);\n" ++
  "                    // Capture conversationId from backend\n" ++
  "                    if (data.conversationId && !conversationId) \x7b\n" ++
  "                        conversationId = data.conversationId;\n" ++
  "                        localStorage.setItem('" ++ agent_name ++ "-conversation-id', conversationId);\n" ++
  "                        console.log('✓ Captured conversationId from backend:', conversationId);\n" ++
  "\n" ++
  "                        // Update URL to include conversationId (for future refreshes)\n" ++
  "                        if (isFirstMessage) \x7b\n" ++
  "                            const newUrl = `/" ++ agent_name ++ "/chat/$\x7bconversationId\x7d`;\n" ++
  "                            window.history.pushState(\x7b\x7d, '', newUrl);\n" ++
  "                            console.log('✓ Updated URL to:', newUrl);\n" ++
  "                        \x7d\n" ++
  "                    \x7d\n" ++
  "                \x7d;"

def gcPath : String := "grant-cards.html"
def etgPath : String := "etg-agent.html"
def ccPath : String := "canexport-claims.html"
def gcId : String := "grant-cards"
def etgId : String := "etg-writer"
def ccId : String := "canexport-claims"

/-- The hardcoded list `files_and_names` of the script (lines 4-8). -/
def files_and_names : List (String × String) :=
  [(gcPath, gcId), (etgPath, etgId), (ccPath, ccId)]

/-- Per-file confirmation message (line 46 of the script). -/
def fixedMsg (p : String) : String :=
  "✓ Fixed onConnected callbacks in " ++ p

/-- Final summary print (line 48 of the script); the printed string itself
starts with a newline. -/
def summaryMsg : String := "\nAll files updated successfully!"

/-! ## Filesystem and run model -/

/-- A filesystem: an association list from file paths to contents. -/
abbrev FS := List (String × String)

def readFS : FS → String → Option String
  | [], _ => none
  | (q, d) :: rest, p => if q = p then some d else readFS rest p

def writeFS : FS → String → String → FS
  | [], p, c => [(p, c)]
  | (q, d) :: rest, p, c => if q = p then (p, c) :: rest else (q, d) :: writeFS rest p c

/-- Observable events of a run, in order: file reads, file writes and
printed lines. -/
inductive Ev where
  | read (p : String) : Ev
  | write (p : String) : Ev
  | print (s : String) : Ev
deriving DecidableEq

/-- Result of a run: final filesystem, even trace, and whether the run
reached the end (`ok = false` means an uncaught read error aborted it). -/
structure RunOut where
  fs : FS
  evs : List Ev
  ok : Bool

/-- One loop iteration's content transform: `re.sub` of the literal pattern
by `new_callback agent_name` (line 41 of the script). -/
def applyPatch (agent_name : String) (c : String) : String :=
  String.mk (replaceAll old_literal.data (new_callback agent_name).data c.data)

/-- The loop of lines 19-46 followed by the final print of line 48: read,
transform, write, print per entry, aborting the whole run on a failed
read with no further processing. -/
def runFrom : FS → List (String × String) → RunOut
  | fs, [] => ⟨fs, [Ev.print summaryMsg], true⟩
  | fs, (p, a) :: rest =>
    match readFS fs p with
    | none => ⟨fs, [Ev.read p], false⟩
    | some c =>
      let r := runFrom (writeFS fs p (applyPatch a c)) rest
      ⟨r.fs, Ev.read p :: Ev.write p :: Ev.print (fixedMsg p) :: r.evs, r.ok⟩

/-- A whole run of the script on filesystem `fs`. -/
def patchAll (fs : FS) : RunOut := runFrom fs files_and_names

def printsOf (evs : List Ev) : List String :=
  evs.filterMap fun e => match e with | Ev.print s => some s | _ => none

def readsOf (evs : List Ev) : List String :=
  evs.filterMap fun e => match e with | Ev.read p => some p | _ => none

def writesOf (evs : List Ev) : List String :=
  evs.filterMap fun e => match e with | Ev.write p => some p | _ => none

def nlStr : String := "\n"

/-- Standard output of a run: every `print` emits its argument followed by
a newline. -/
def stdoutOf (evs : List Ev) : String :=
  String.join ((printsOf evs).map fun s => s ++ nlStr)

/-! ## Generic lemmas about `replaceAll` -/

theorem replaceAll_nil (pat repl : List α) : replaceAll pat repl [] = [] := by
  simp [replaceAll]

theorem replaceAll_cons (pat repl : List α) (a : α) (s : List α) :
    replaceAll pat repl (a :: s) =
      if pat <+: (a :: s) then repl ++ replaceAll pat repl (s.drop (pat.length - 1))
      else a :: replaceAll pat repl s := by
  rw [replaceAll]

theorem isPref_iff (p s : List α) : isPref p s = true ↔ p <+: s := by
  induction p generalizing s with
  | nil => simp [isPref, List.nil_prefix]
  | cons a as ih =>
    cases s with
    | nil => simp [isPref]
    | cons b bs =>
      by_cases hab : a = b
      · subst hab; simp [isPref, ih, List.cons_prefix_cons]
      · simp [isPref, hab, List.cons_prefix_cons]

theorem cons_eq_pat_append {pat : List α} {a : α} {s : List α}
    (h : pat <+: (a :: s)) (hp : pat ≠ []) :
    a :: s = pat ++ s.drop (pat.length - 1) := by
  cases pat with
  | nil => exact absurd rfl hp
  | cons p ps =>
    obtain ⟨t, ht⟩ := h
    rw [List.cons_append] at ht
    injection ht with h1 h2
    subst h1
    subst h2
    simp [List.drop_left]

theorem replaceAll_eq_self (pat repl : List α) (s : List α) (h : ¬ pat <:+: s) :
    replaceAll pat repl s = s := by
  induction s with
  | nil => simp [replaceAll]
  | cons a s ih =>
    rw [replaceAll_cons]
    have hnp : ¬ pat <+: (a :: s) := fun hpre => h hpre.isInfix
    rw [if_neg hnp]
    have hs : ¬ pat <:+: s := fun hi => h (List.infix_cons hi)
    rw [ih hs]

theorem prefix_of_append_of_le {l u v : List α} (h : l <+: u ++ v)
    (hle : l.length ≤ u.length) : l <+: u := by
  rw [List.prefix_iff_eq_take] at h
  rw [List.take_append_of_le_length hle] at h
  rw [h]
  exact List.take_prefix l.length u

theorem pref_swap {pat c v : List α} (h : pat <+: c ++ v)
    (hle : c.length ≤ pat.length) : c <+: pat := by
  obtain ⟨w, hw⟩ := h
  have : c = pat.take c.length := by
    rw [← List.take_append_of_le_length hle, hw, List.take_left]
  rw [this]
  exact List.take_prefix c.length pat

theorem infix_append_split (pat u v : List α) (h : pat <:+: (u ++ v)) :
    pat <:+: u ∨ pat <:+: v ∨
      ∃ c, c <:+ u ∧ c ≠ [] ∧ c.length < pat.length ∧ c <+: pat := by
  induction u with
  | nil =>
    simp only [List.nil_append] at h
    exact Or.inr (Or.inl h)
  | cons b u' ih =>
    rw [List.infix_iff_prefix_suffix] at h
    obtain ⟨t, hpt, hts⟩ := h
    rw [List.cons_append, List.suffix_cons_iff] at hts
    rcases hts with heq | hsuf
    · subst heq
      rw [← List.cons_append] at hpt
      by_cases hl : pat.length ≤ (b :: u').length
      · exact Or.inl (prefix_of_append_of_le hpt hl).isInfix
      · refine Or.inr (Or.inr ⟨b :: u', List.suffix_refl _, by simp, by omega, ?_⟩)
        exact pref_swap hpt (by omega)
    · have hiv : pat <:+: (u' ++ v) := List.infix_iff_prefix_suffix.mpr ⟨t, hpt, hsuf⟩
      rcases ih hiv with h1 | h2 | ⟨c, hc1, hc2, hc3, hc4⟩
      · exact Or.inl (List.infix_cons h1)
      · exact Or.inr (Or.inl h2)
      · exact Or.inr (Or.inr ⟨c, List.suffix_cons_iff.mpr (Or.inr hc1), hc2, hc3, hc4⟩)

theorem pref_transfer {pat repl : List α}
    (hle : pat.length ≤ repl.length)
    (h4 : ∀ d, d <:+ pat → d ≠ [] → d.length < pat.length → ¬ d <+: repl) :
    ∀ n s, s.length ≤ n → ∀ d, d <:+ pat → d ≠ [] → d.length < pat.length →
      d <+: replaceAll pat repl s → d <+: s := by
  intro n
  induction n with
  | zero =>
    intro s hs d _ hdne _ hpre
    have hnil : s = [] := List.eq_nil_of_length_eq_zero (Nat.le_zero.mp hs)
    subst hnil
    rw [replaceAll_nil] at hpre
    rw [List.prefix_nil] at hpre
    exact absurd hpre hdne
  | succ n ih =>
    intro s hs d hd hdne hdlen hpre
    cases s with
    | nil =>
      rw [replaceAll_nil, List.prefix_nil] at hpre
      exact absurd hpre hdne
    | cons a s =>
      rw [replaceAll_cons] at hpre
      by_cases hm : pat <+: (a :: s)
      · rw [if_pos hm] at hpre
        have hdr : d <+: repl := prefix_of_append_of_le hpre (by omega)
        exact absurd hdr (h4 d hd hdne hdlen)
      · rw [if_neg hm] at hpre
        cases d with
        | nil => exact absurd rfl hdne
        | cons x d' =>
          rw [List.cons_prefix_cons] at hpre
          obtain ⟨hxa, hd'⟩ := hpre
          subst hxa
          by_cases hd'e : d' = []
          · subst hd'e
            rw [List.cons_prefix_cons]
            exact ⟨rfl, List.nil_prefix⟩
          · have hd's : d' <:+ pat := (List.suffix_cons x d').trans hd
            have hd'len : d'.length < pat.length := by
              have := List.length_cons x d'
              omega
            have hrec : d' <+: s := by
              refine ih s ?_ d' hd's hd'e hd'len hd'
              have := List.length_cons x s
              omega
            rw [List.cons_prefix_cons]
            exact ⟨rfl, hrec⟩

theorem replaceAll_no_match {pat repl : List α}
    (hp : pat ≠ []) (hle : pat.length ≤ repl.length)
    (h2 : ¬ pat <:+: repl)
    (h3 : ∀ c, c <:+ repl → c ≠ [] → c.length < pat.length → ¬ c <+: pat)
    (h4 : ∀ d, d <:+ pat → d ≠ [] → d.length < pat.length → ¬ d <+: repl) :
    ∀ n s, s.length ≤ n → ¬ pat <:+: replaceAll pat repl s := by
  intro n
  induction n with
  | zero =>
    intro s hs hocc
    have hnil : s = [] := List.eq_nil_of_length_eq_zero (Nat.le_zero.mp hs)
    subst hnil
    rw [replaceAll_nil, List.infix_nil] at hocc
    exact hp hocc
  | succ n ih =>
    intro s hs hocc
    cases s with
    | nil =>
      rw [replaceAll_nil, List.infix_nil] at hocc
      exact hp hocc
    | cons a s =>
      rw [replaceAll_cons] at hocc
      by_cases hm : pat <+: (a :: s)
      · rw [if_pos hm] at hocc
        rcases infix_append_split pat repl _ hocc with h | h | ⟨c, hc1, hc2, hc3, hc4⟩
        · exact h2 h
        · refine ih (s.drop (pat.length - 1)) ?_ h
          have := List.length_drop (pat.length - 1) s
          have hlen := (List.length_cons a s) ▸ hs
          omega
        · exact h3 c hc1 hc2 hc3 hc4
      · rw [if_neg hm] at hocc
        rw [List.infix_iff_prefix_suffix] at hocc
        obtain ⟨t, hpt, hts⟩ := hocc
        rw [List.suffix_cons_iff] at hts
        rcases hts with heq | hsuf
        · subst heq
          cases pat with
          | nil => exact hp rfl
          | cons x p' =>
            rw [List.cons_prefix_cons] at hpt
            obtain ⟨hxa, hp'⟩ := hpt
            subst hxa
            by_cases hp'e : p' = []
            · subst hp'e
              exact hm (by rw [List.cons_prefix_cons]; exact ⟨rfl, List.nil_prefix⟩)
            · have hp's : p' <:+ (x :: p') := List.suffix_cons x p'
              have hp'len : p'.length < (x :: p').length := by simp
              have : p' <+: s := by
                refine pref_transfer hle h4 n s ?_ p' hp's hp'e hp'len hp'
                have := List.length_cons x s
                omega
              exact hm (by rw [List.cons_prefix_cons]; exact ⟨rfl, this⟩)
        · have : pat <:+: replaceAll pat repl s := by
            rw [List.infix_iff_prefix_suffix]
            exact ⟨t, hpt, hsuf⟩
          refine ih s ?_ this
          have := List.length_cons a s
          omega

/-! ## Occurrence counting -/

theorem countOcc_le_append (pat u s : List α) :
    countOcc pat s ≤ countOcc pat (u ++ s) := by
  induction u with
  | nil => simp
  | cons b u' ih =>
    rw [List.cons_append]
    calc countOcc pat s ≤ countOcc pat (u' ++ s) := ih
    _ ≤ (if pat <+: b :: (u' ++ s) then 1 else 0) + countOcc pat (u' ++ s) := Nat.le_add_left _ _
    _ = countOcc pat (b :: (u' ++ s)) := rfl

theorem countOcc_pos_of_prefix {pat s : List α} (hp : pat ≠ []) (h : pat <+: s) :
    0 < countOcc pat s := by
  cases s with
  | nil =>
    rw [List.prefix_nil] at h
    exact absurd h hp
  | cons a t =>
    show 0 < (if pat <+: a :: t then 1 else 0) + countOcc pat t
    rw [if_pos h]
    omega

theorem countOcc_pos_of_infix {pat s : List α} (hp : pat ≠ []) (h : pat <:+: s) :
    0 < countOcc pat s := by
  obtain ⟨x, y, hxy⟩ := h
  subst hxy
  have h1 : 0 < countOcc pat (pat ++ y) :=
    countOcc_pos_of_prefix hp (List.prefix_append pat y)
  calc 0 < countOcc pat (pat ++ y) := h1
  _ ≤ countOcc pat (x ++ (pat ++ y)) := countOcc_le_append pat x (pat ++ y)
  _ = countOcc pat (x ++ pat ++ y) := by rw [List.append_assoc]

theorem not_infix_of_countOcc_zero {pat s : List α} (hp : pat ≠ [])
    (h : countOcc pat s = 0) : ¬ pat <:+: s := by
  intro hocc
  have := countOcc_pos_of_infix hp hocc
  omega

/-- Exact effect of `replaceAll` on a content containing exactly one match
of the pattern: only that block is replaced, every other element is kept. -/
theorem replaceAll_single {pat : List α} (repl : List α) (hp : pat ≠ []) :
    ∀ A B : List α, countOcc pat (A ++ pat ++ B) = 1 →
      replaceAll pat repl (A ++ pat ++ B) = A ++ repl ++ B := by
  intro A
  induction A with
  | nil =>
    intro B h
    rw [List.nil_append] at h ⊢
    cases pat with
    | nil => exact absurd rfl hp
    | cons p ps =>
      rw [List.cons_append] at h ⊢
      have hpre : (p :: ps) <+: p :: (ps ++ B) := by
        rw [← List.cons_append]
        exact List.prefix_append (p :: ps) B
      have hcount : (1 : Nat) + countOcc (p :: ps) (ps ++ B) = 1 := by
        have : countOcc (p :: ps) (p :: (ps ++ B)) = 1 := h
        rw [show countOcc (p :: ps) (p :: (ps ++ B)) =
          (if (p :: ps) <+: p :: (ps ++ B) then 1 else 0) +
            countOcc (p :: ps) (ps ++ B) from rfl, if_pos hpre] at this
        exact this
      have hB : countOcc (p :: ps) B = 0 := by
        have := countOcc_le_append (p :: ps) ps B
        omega
      rw [replaceAll_cons, if_pos hpre]
      have hdrop : (ps ++ B).drop ((p :: ps).length - 1) = B := by
        simp [List.drop_left]
      rw [hdrop]
      rw [replaceAll_eq_self _ _ B (not_infix_of_countOcc_zero hp hB)]
      simp
  | cons a A' ih =>
    intro B h
    rw [List.cons_append, List.cons_append] at h
    have hpos : 0 < countOcc pat (A' ++ pat ++ B) :=
      countOcc_pos_of_infix hp ⟨A', B, rfl⟩
    have hsplit : countOcc pat (a :: (A' ++ pat ++ B)) =
        (if pat <+: a :: (A' ++ pat ++ B) then 1 else 0) +
          countOcc pat (A' ++ pat ++ B) := rfl
    have hnm : ¬ pat <+: a :: (A' ++ pat ++ B) := by
      intro hpre
      rw [hsplit, if_pos hpre] at h
      omega
    rw [hsplit, if_neg hnm] at h
    have h1 : countOcc pat (A' ++ pat ++ B) = 1 := by omega
    rw [List.cons_append, List.cons_append, replaceAll_cons, if_neg hnm, ih B h1]
    simp

/-! ## Soundness of the boolean checkers -/

theorem overlapFree_sound {xs target : List α} {bound : Nat}
    (h : overlapFree xs target bound = true) :
    ∀ c, c <:+ xs → c ≠ [] → c.length < bound → ¬ c <+: target := by
  intro c hs hne hlen hpref
  have hmem : c ∈ xs.tails := (List.mem_tails c xs).mpr hs
  have hc := List.all_eq_true.mp h c hmem
  simp only [Bool.or_eq_true, Bool.not_eq_true'] at hc
  rcases hc with (he | hnp) | hble
  · exact hne ((List.isEmpty_iff).mp he)
  · rw [← Bool.not_eq_true, isPref_iff] at hnp
    · exact hnp hpref
  · rw [Nat.ble_eq] at hble
    omega

theorem infixFree_sound {pat xs : List α} (h : infixFree pat xs = true) :
    ¬ pat <:+: xs := by
  intro hocc
  rw [List.infix_iff_prefix_suffix] at hocc
  obtain ⟨t, hpt, hts⟩ := hocc
  have hmem : t ∈ xs.tails := (List.mem_tails t xs).mpr hts
  have hc := List.all_eq_true.mp h t hmem
  simp only [Bool.not_eq_true'] at hc
  rw [← Bool.not_eq_true, isPref_iff] at hc
  exact hc hpt

/-! ## Concrete side conditions of the pattern and the three replacements -/

set_option maxRecDepth 1000000

theorem old_literal_ne_nil : old_literal.data ≠ [] := by decide

theorem conds_gc :
    infixFree old_literal.data (new_callback gcId).data = true ∧
    overlapFree (new_callback gcId).data old_literal.data old_literal.data.length = true ∧
    overlapFree old_literal.data (new_callback gcId).data old_literal.data.length = true ∧
    Nat.ble old_literal.data.length (new_callback gcId).data.length = true :=
  ⟨by decide, by decide, by decide, by decide⟩

theorem conds_etg :
    infixFree old_literal.data (new_callback etgId).data = true ∧
    overlapFree (new_callback etgId).data old_literal.data old_literal.data.length = true ∧
    overlapFree old_literal.data (new_callback etgId).data old_literal.data.length = true ∧
    Nat.ble old_literal.data.length (new_callback etgId).data.length = true :=
  ⟨by decide, by decide, by decide, by decide⟩

theorem conds_cc :
    infixFree old_literal.data (new_callback ccId).data = true ∧
    overlapFree (new_callback ccId).data old_literal.data old_literal.data.length = true ∧
    overlapFree old_literal.data (new_callback ccId).data old_literal.data.length = true ∧
    Nat.ble old_literal.data.length (new_callback ccId).data.length = true :=
  ⟨by decide, by decide, by decide, by decide⟩

/-- Under the (decidable, checked) overlap conditions, the pattern never
occurs in the output of the substitution, whatever the input content. -/
theorem patched_no_occur (aname : String)
    (hc1 : infixFree old_literal.data (new_callback aname).data = true)
    (hc2 : overlapFree (new_callback aname).data old_literal.data old_literal.data.length = true)
    (hc3 : overlapFree old_literal.data (new_callback aname).data old_literal.data.length = true)
    (hc4 : Nat.ble old_literal.data.length (new_callback aname).data.length = true) :
    ∀ s : List Char,
      ¬ old_literal.data <:+: replaceAll old_literal.data (new_callback aname).data s := by
  intro s
  exact replaceAll_no_match old_literal_ne_nil (Nat.le_of_ble_eq_true hc4)
    (infixFree_sound hc1) (overlapFree_sound hc2) (overlapFree_sound hc3)
    s.length s (Nat.le_refl _)

theorem no_occur_gc :
    ∀ s, ¬ old_literal.data <:+: replaceAll old_literal.data (new_callback gcId).data s :=
  patched_no_occur gcId conds_gc.1 conds_gc.2.1 conds_gc.2.2.1 conds_gc.2.2.2

theorem no_occur_etg :
    ∀ s, ¬ old_literal.data <:+: replaceAll old_literal.data (new_callback etgId).data s :=
  patched_no_occur etgId conds_etg.1 conds_etg.2.1 conds_etg.2.2.1 conds_etg.2.2.2

theorem no_occur_cc :
    ∀ s, ¬ old_literal.data <:+: replaceAll old_literal.data (new_callback ccId).data s :=
  patched_no_occur ccId conds_cc.1 conds_cc.2.1 conds_cc.2.2.1 conds_cc.2.2.2

/-! ## Filesystem lemmas -/

theorem readFS_writeFS_self (fs : FS) (p c : String) :
    readFS (writeFS fs p c) p = some c := by
  induction fs with
  | nil => simp [writeFS, readFS]
  | cons qd rest ih =>
    obtain ⟨q, d⟩ := qd
    by_cases h : q = p
    · simp [writeFS, readFS, h]
    · simp [writeFS, readFS, h, ih]

theorem readFS_writeFS_ne (fs : FS) (p c q : String) (h : p ≠ q) :
    readFS (writeFS fs p c) q = readFS fs q := by
  induction fs with
  | nil => simp [writeFS, readFS, h]
  | cons rd rest ih =>
    obtain ⟨r, d⟩ := rd
    by_cases hrp : r = p
    · subst hrp
      simp [writeFS, readFS, h]
    · by_cases hrq : r = q
      · simp [writeFS, readFS, hrp, hrq, Ne.symm h]
      · simp [writeFS, readFS, hrp, hrq, ih]

theorem writeFS_self (fs : FS) (p c : String) (h : readFS fs p = some c) :
    writeFS fs p c = fs := by
  induction fs with
  | nil => simp [readFS] at h
  | cons qd rest ih =>
    obtain ⟨q, d⟩ := qd
    by_cases hqp : q = p
    · subst hqp
      simp [readFS] at h
      simp [writeFS, h]
    · simp [readFS, hqp] at h
      simp [writeFS, hqp, ih h]

/-! ## Shape of a run -/

theorem mk_data (s : String) : String.mk s.data = s := rfl

theorem applyPatch_data (aname c : String) :
    (applyPatch aname c).data =
      replaceAll old_literal.data (new_callback aname).data c.data := rfl

theorem applyPatch_fixed (aname c : String)
    (hno : ¬ old_literal.data <:+: c.data) : applyPatch aname c = c := by
  unfold applyPatch
  rw [replaceAll_eq_self _ _ _ hno]

/-- A run in which all three reads succeed: the three files are rewritten
in list order, the trace is the full nine per-file events plus the final
summary print, and the run reaches the end. -/
theorem patchAll_success (fs : FS) (c1 c2 c3 : String)
    (h1 : readFS fs gcPath = some c1) (h2 : readFS fs etgPath = some c2)
    (h3 : readFS fs ccPath = some c3) :
    patchAll fs =
      ⟨writeFS (writeFS (writeFS fs gcPath (applyPatch gcId c1))
          etgPath (applyPatch etgId c2)) ccPath (applyPatch ccId c3),
        [Ev.read gcPath, Ev.write gcPath, Ev.print (fixedMsg gcPath),
         Ev.read etgPath, Ev.write etgPath, Ev.print (fixedMsg etgPath),
         Ev.read ccPath, Ev.write ccPath, Ev.print (fixedMsg ccPath),
         Ev.print summaryMsg], true⟩ := by
  have h2' : readFS (writeFS fs gcPath (applyPatch gcId c1)) etgPath = some c2 := by
    rw [readFS_writeFS_ne fs gcPath (applyPatch gcId c1) etgPath (by decide)]
    exact h2
  have h3' : readFS (writeFS (writeFS fs gcPath (applyPatch gcId c1))
      etgPath (applyPatch etgId c2)) ccPath = some c3 := by
    rw [readFS_writeFS_ne _ etgPath (applyPatch etgId c2) ccPath (by decide)]
    rw [readFS_writeFS_ne fs gcPath (applyPatch gcId c1) ccPath (by decide)]
    exact h3
  simp only [patchAll, files_and_names, runFrom, h1, h2', h3']

/-! ## C1: idempotence of the patch -/

/-- C1. After a successful run, the search pattern no longer occurs in any
of the three patched files, so a second run of the patcher is a no-op: it
succeeds and leaves the filesystem byte-for-byte identical. -/
theorem patcher_idempotent (fs : FS) (c1 c2 c3 : String)
    (h1 : readFS fs gcPath = some c1) (h2 : readFS fs etgPath = some c2)
    (h3 : readFS fs ccPath = some c3) :
    (patchAll fs).ok = true ∧
    (∀ d, readFS (patchAll fs).fs gcPath = some d → ¬ old_literal.data <:+: d.data) ∧
    (∀ d, readFS (patchAll fs).fs etgPath = some d → ¬ old_literal.data <:+: d.data) ∧
    (∀ d, readFS (patchAll fs).fs ccPath = some d → ¬ old_literal.data <:+: d.data) ∧
    (patchAll (patchAll fs).fs).fs = (patchAll fs).fs ∧
    (patchAll (patchAll fs).fs).ok = true := by
  rw [patchAll_success fs c1 c2 c3 h1 h2 h3]
  set w1 := writeFS fs gcPath (applyPatch gcId c1) with hw1
  set w2 := writeFS w1 etgPath (applyPatch etgId c2) with hw2
  set w3 := writeFS w2 ccPath (applyPatch ccId c3) with hw3
  have hr1 : readFS w3 gcPath = some (applyPatch gcId c1) := by
    rw [hw3, readFS_writeFS_ne _ ccPath _ gcPath (by decide)]
    rw [hw2, readFS_writeFS_ne _ etgPath _ gcPath (by decide)]
    rw [hw1, readFS_writeFS_self]
  have hr2 : readFS w3 etgPath = some (applyPatch etgId c2) := by
    rw [hw3, readFS_writeFS_ne _ ccPath _ etgPath (by decide)]
    rw [hw2, readFS_writeFS_self]
  have hr3 : readFS w3 ccPath = some (applyPatch ccId c3) := by
    rw [hw3, readFS_writeFS_self]
  have hno1 : ¬ old_literal.data <:+: (applyPatch gcId c1).data := by
    rw [applyPatch_data]
    exact no_occur_gc c1.data
  have hno2 : ¬ old_literal.data <:+: (applyPatch etgId c2).data := by
    rw [applyPatch_data]
    exact no_occur_etg c2.data
  have hno3 : ¬ old_literal.data <:+: (applyPatch ccId c3).data := by
    rw [applyPatch_data]
    exact no_occur_cc c3.data
  refine ⟨rfl, ?_, ?_, ?_, ?_, ?_⟩
  · intro d hd
    rw [hr1] at hd
    injection hd with hd
    subst hd
    exact hno1
  · intro d hd
    rw [hr2] at hd
    injection hd with hd
    subst hd
    exact hno2
  · intro d hd
    rw [hr3] at hd
    injection hd with hd
    subst hd
    exact hno3
  · show (patchAll w3).fs = w3
    rw [patchAll_success w3 _ _ _ hr1 hr2 hr3]
    show writeFS (writeFS (writeFS w3 gcPath _) etgPath _) ccPath _ = w3
    rw [applyPatch_fixed gcId _ hno1, applyPatch_fixed etgId _ hno2,
      applyPatch_fixed ccId _ hno3]
    rw [writeFS_self w3 gcPath _ hr1, writeFS_self w3 etgPath _ hr2,
      writeFS_self w3 ccPath _ hr3]
  · show (patchAll w3).ok = true
    rw [patchAll_success w3 _ _ _ hr1 hr2 hr3]

def fsW : FS := [(gcPath, "x"), (etgPath, "y"), (ccPath, "z")]

/-- Witness for C1 at a concrete filesystem. -/
theorem patcher_idempotent_witness :
    (patchAll fsW).ok = true ∧ (patchAll (patchAll fsW).fs).fs = (patchAll fsW).fs := by
  have h := patcher_idempotent fsW "x" "y" "z" (by decide) (by decide) (by decide)
  exact ⟨h.1, h.2.2.2.2.1⟩

/-! ## Shapes of aborted runs -/

theorem patchAll_halt1 (fs : FS) (h1 : readFS fs gcPath = none) :
    patchAll fs = ⟨fs, [Ev.read gcPath], false⟩ := by
  simp only [patchAll, files_and_names, runFrom, h1]

theorem patchAll_halt2 (fs : FS) (c1 : String)
    (h1 : readFS fs gcPath = some c1) (h2 : readFS fs etgPath = none) :
    patchAll fs =
      ⟨writeFS fs gcPath (applyPatch gcId c1),
        [Ev.read gcPath, Ev.write gcPath, Ev.print (fixedMsg gcPath), Ev.read etgPath],
        false⟩ := by
  have h2' : readFS (writeFS fs gcPath (applyPatch gcId c1)) etgPath = none := by
    rw [readFS_writeFS_ne fs gcPath (applyPatch gcId c1) etgPath (by decide)]
    exact h2
  simp only [patchAll, files_and_names, runFrom, h1, h2']

theorem patchAll_halt3 (fs : FS) (c1 c2 : String)
    (h1 : readFS fs gcPath = some c1) (h2 : readFS fs etgPath = some c2)
    (h3 : readFS fs ccPath = none) :
    patchAll fs =
      ⟨writeFS (writeFS fs gcPath (applyPatch gcId c1)) etgPath (applyPatch etgId c2),
        [Ev.read gcPath, Ev.write gcPath, Ev.print (fixedMsg gcPath),
         Ev.read etgPath, Ev.write etgPath, Ev.print (fixedMsg etgPath),
         Ev.read ccPath], false⟩ := by
  have h2' : readFS (writeFS fs gcPath (applyPatch gcId c1)) etgPath = some c2 := by
    rw [readFS_writeFS_ne fs gcPath (applyPatch gcId c1) etgPath (by decide)]
    exact h2
  have h3' : readFS (writeFS (writeFS fs gcPath (applyPatch gcId c1))
      etgPath (applyPatch etgId c2)) ccPath = none := by
    rw [readFS_writeFS_ne _ etgPath (applyPatch etgId c2) ccPath (by decide)]
    rw [readFS_writeFS_ne fs gcPath (applyPatch gcId c1) ccPath (by decide)]
    exact h3
  simp only [patchAll, files_and_names, runFrom, h1, h2', h3']

/-- Whenever the first file is readable, it ends up rewritten with
`applyPatch` and its confirmation message is printed exactly once,
regardless of what happens to the later files. -/
theorem patchAll_first_file (fs : FS) (c : String)
    (h1 : readFS fs gcPath = some c) :
    readFS (patchAll fs).fs gcPath = some (applyPatch gcId c) ∧
    (patchAll fs).evs.count (Ev.print (fixedMsg gcPath)) = 1 ∧
    Ev.print (fixedMsg gcPath) ∈ (patchAll fs).evs := by
  cases hr2 : readFS fs etgPath with
  | none =>
    rw [patchAll_halt2 fs c h1 hr2]
    refine ⟨readFS_writeFS_self fs gcPath _, ?_, ?_⟩
    · show List.count (Ev.print (fixedMsg gcPath))
        [Ev.read gcPath, Ev.write gcPath, Ev.print (fixedMsg gcPath), Ev.read etgPath] = 1
      decide
    · show Ev.print (fixedMsg gcPath) ∈
        [Ev.read gcPath, Ev.write gcPath, Ev.print (fixedMsg gcPath), Ev.read etgPath]
      decide
  | some c2 =>
    cases hr3 : readFS fs ccPath with
    | none =>
      rw [patchAll_halt3 fs c c2 h1 hr2 hr3]
      refine ⟨?_, ?_, ?_⟩
      · rw [readFS_writeFS_ne _ etgPath _ gcPath (by decide)]
        exact readFS_writeFS_self fs gcPath _
      · show List.count (Ev.print (fixedMsg gcPath))
          [Ev.read gcPath, Ev.write gcPath, Ev.print (fixedMsg gcPath),
           Ev.read etgPath, Ev.write etgPath, Ev.print (fixedMsg etgPath),
           Ev.read ccPath] = 1
        decide
      · show Ev.print (fixedMsg gcPath) ∈
          [Ev.read gcPath, Ev.write gcPath, Ev.print (fixedMsg gcPath),
           Ev.read etgPath, Ev.write etgPath, Ev.print (fixedMsg etgPath),
           Ev.read ccPath]
        decide
    | some c3 =>
      rw [patchAll_success fs c c2 c3 h1 hr2 hr3]
      refine ⟨?_, ?_, ?_⟩
      · rw [readFS_writeFS_ne _ ccPath _ gcPath (by decide)]
        rw [readFS_writeFS_ne _ etgPath _ gcPath (by decide)]
        exact readFS_writeFS_self fs gcPath _
      · show List.count (Ev.print (fixedMsg gcPath))
          [Ev.read gcPath, Ev.write gcPath, Ev.print (fixedMsg gcPath),
           Ev.read etgPath, Ev.write etgPath, Ev.print (fixedMsg etgPath),
           Ev.read ccPath, Ev.write ccPath, Ev.print (fixedMsg ccPath),
           Ev.print summaryMsg] = 1
        decide
      · show Ev.print (fixedMsg gcPath) ∈
          [Ev.read gcPath, Ev.write gcPath, Ev.print (fixedMsg gcPath),
           Ev.read etgPath, Ev.write etgPath, Ev.print (fixedMsg etgPath),
           Ev.read ccPath, Ev.write ccPath, Ev.print (fixedMsg ccPath),
           Ev.print summaryMsg]
        decide

/-! ## C2: a failed read halts the run -/

/-- C2. A missing listed file makes the read fail and the whole run halt
right there: no later entry of the list is processed, files written before
the failure keep their patched content, files after it keep their original
content, and the summary line is never printed on an aborted run. -/
theorem halt_on_missing_file (fs : FS) :
    (readFS fs gcPath = none → patchAll fs = ⟨fs, [Ev.read gcPath], false⟩) ∧
    (∀ c1, readFS fs gcPath = some c1 → readFS fs etgPath = none →
      patchAll fs =
        ⟨writeFS fs gcPath (applyPatch gcId c1),
          [Ev.read gcPath, Ev.write gcPath, Ev.print (fixedMsg gcPath), Ev.read etgPath],
          false⟩ ∧
      readFS (patchAll fs).fs gcPath = some (applyPatch gcId c1) ∧
      readFS (patchAll fs).fs ccPath = readFS fs ccPath) ∧
    (∀ c1 c2, readFS fs gcPath = some c1 → readFS fs etgPath = some c2 →
      readFS fs ccPath = none →
      patchAll fs =
        ⟨writeFS (writeFS fs gcPath (applyPatch gcId c1)) etgPath (applyPatch etgId c2),
          [Ev.read gcPath, Ev.write gcPath, Ev.print (fixedMsg gcPath),
           Ev.read etgPath, Ev.write etgPath, Ev.print (fixedMsg etgPath),
           Ev.read ccPath], false⟩) ∧
    ((patchAll fs).ok = false → Ev.print summaryMsg ∉ (patchAll fs).evs) := by
  refine ⟨patchAll_halt1 fs, ?_, ?_, ?_⟩
  · intro c1 h1 h2
    refine ⟨patchAll_halt2 fs c1 h1 h2, ?_, ?_⟩
    · rw [patchAll_halt2 fs c1 h1 h2]
      exact readFS_writeFS_self fs gcPath _
    · rw [patchAll_halt2 fs c1 h1 h2]
      exact readFS_writeFS_ne fs gcPath _ ccPath (by decide)
  · intro c1 c2 h1 h2 h3
    exact patchAll_halt3 fs c1 c2 h1 h2 h3
  · intro hok hmem
    cases hr1 : readFS fs gcPath with
    | none =>
      rw [patchAll_halt1 fs hr1] at hmem
      have : Ev.print summaryMsg ∉ [Ev.read gcPath] := by decide
      exact this hmem
    | some c1 =>
      cases hr2 : readFS fs etgPath with
      | none =>
        rw [patchAll_halt2 fs c1 hr1 hr2] at hmem
        have : Ev.print summaryMsg ∉
            [Ev.read gcPath, Ev.write gcPath, Ev.print (fixedMsg gcPath),
             Ev.read etgPath] := by decide
        exact this hmem
      | some c2 =>
        cases hr3 : readFS fs ccPath with
        | none =>
          rw [patchAll_halt3 fs c1 c2 hr1 hr2 hr3] at hmem
          have : Ev.print summaryMsg ∉
              [Ev.read gcPath, Ev.write gcPath, Ev.print (fixedMsg gcPath),
               Ev.read etgPath, Ev.write etgPath, Ev.print (fixedMsg etgPath),
               Ev.read ccPath] := by decide
          exact this hmem
        | some c3 =>
          rw [patchAll_success fs c1 c2 c3 hr1 hr2 hr3] at hok
          simp at hok

def fsW2 : FS := [(gcPath, "x"), (ccPath, "z")]

/-- Witness for C2 on a filesystem missing the second listed file. -/
theorem halt_on_missing_file_witness :
    (patchAll fsW2).ok = false ∧ Ev.print summaryMsg ∉ (patchAll fsW2).evs := by
  have h := (halt_on_missing_file fsW2).2.1 "x" (by decide) (by decide)
  have hok : (patchAll fsW2).ok = false := by rw [h.1]
  exact ⟨hok, (halt_on_missing_file fsW2).2.2.2 hok⟩

/-! ## C3: global substitution, one message per file -/

theorem infix_of_countOcc_pos {pat s : List α} (h : 0 < countOcc pat s) :
    pat <:+: s := by
  induction s with
  | nil => simp [countOcc] at h
  | cons a t ih =>
    by_cases hm : pat <+: a :: t
    · exact hm.isInfix
    · have hrec : 0 < countOcc pat t := by
        have hu : countOcc pat (a :: t) =
            (if pat <+: a :: t then 1 else 0) + countOcc pat t := rfl
        rw [hu, if_neg hm] at h
        omega
      exact List.infix_cons (ih hrec)

theorem countOcc_eq_zero_of_not_infix {pat s : List α} (h : ¬ pat <:+: s) :
    countOcc pat s = 0 := by
  by_contra hne
  exact h (infix_of_countOcc_pos (Nat.pos_of_ne_zero hne))

/-- C3. On a file whose content matches the search pattern at two or more
positions, the run rewrites the file with the global substitution, after
which the pattern matches nowhere (every occurrence was replaced, not only
the first), while the per-file confirmation message is still printed
exactly once. -/
theorem global_substitution_single_message (fs : FS) (c : String)
    (h1 : readFS fs gcPath = some c)
    (hcnt : 2 ≤ countOcc old_literal.data c.data) :
    readFS (patchAll fs).fs gcPath = some (applyPatch gcId c) ∧
    countOcc old_literal.data (applyPatch gcId c).data = 0 ∧
    (patchAll fs).evs.count (Ev.print (fixedMsg gcPath)) = 1 := by
  obtain ⟨hfile, hcount, _⟩ := patchAll_first_file fs c h1
  refine ⟨hfile, ?_, hcount⟩
  rw [applyPatch_data]
  exact countOcc_eq_zero_of_not_infix (no_occur_gc c.data)

def docW3 : String := old_literal ++ old_literal

def fsW3 : FS := [(gcPath, docW3), (etgPath, "y"), (ccPath, "z")]

/-- Witness for C3 on a content made of two adjacent pattern occurrences. -/
theorem global_substitution_single_message_witness :
    countOcc old_literal.data (applyPatch gcId docW3).data = 0 ∧
    (patchAll fsW3).evs.count (Ev.print (fixedMsg gcPath)) = 1 := by
  have h := global_substitution_single_message fsW3 docW3 (by decide) (by decide)
  exact ⟨h.2.1, h.2.2⟩

/-! ## C5: a content without a match is written back unchanged -/

/-- C5. If the pattern matches nowhere in the first file's content, the
content written back is byte-identical to the content read, and the
confirmation message for that file is printed anyway: the script never
checks that a replacement happened. -/
theorem no_match_silent_noop (fs : FS) (c : String)
    (h1 : readFS fs gcPath = some c)
    (hno : countOcc old_literal.data c.data = 0) :
    readFS (patchAll fs).fs gcPath = some c ∧
    (patchAll fs).evs.count (Ev.print (fixedMsg gcPath)) = 1 ∧
    Ev.print (fixedMsg gcPath) ∈ (patchAll fs).evs := by
  obtain ⟨hfile, hcount, hmem⟩ := patchAll_first_file fs c h1
  have hfix : applyPatch gcId c = c := by
    refine applyPatch_fixed gcId c ?_
    exact not_infix_of_countOcc_zero old_literal_ne_nil hno
  rw [hfix] at hfile
  exact ⟨hfile, hcount, hmem⟩

def fsW5 : FS := [(gcPath, "hello")]

/-- Witness for C5 on a one-file filesystem whose content has no match;
the run even aborts at the second file, yet the first file's message was
already printed and its content is untouched. -/
theorem no_match_silent_noop_witness :
    readFS (patchAll fsW5).fs gcPath = some "hello" ∧
    Ev.print (fixedMsg gcPath) ∈ (patchAll fsW5).evs := by
  have h := no_match_silent_noop fsW5 "hello" (by decide) (by decide)
  exact ⟨h.1, h.2.2⟩

/-! ## C4: exact effect on a single-occurrence content -/

/-- Boolean substring test at the `String` level. -/
def containsStr (needle hay : String) : Bool :=
  hay.data.tails.any fun c => isPref needle.data c

theorem containsStr_sound {needle hay : String}
    (h : containsStr needle hay = true) : needle.data <:+: hay.data := by
  obtain ⟨t, htmem, hpt⟩ := List.any_eq_true.mp h
  rw [List.infix_iff_prefix_suffix]
  exact ⟨t, (isPref_iff needle.data t).mp hpt, (List.mem_tails t hay.data).mp htmem⟩

/-- First original log line of the callback body. -/
def origLog1 : String := "console.log('✓ Connected to agent:', data);"

/-- Second original log line of the callback body. -/
def origLog2 : String :=
  "console.log('✓ Captured conversationId from backend:', conversationId);"

/-- Persistent-storage write of the generated replacement, keyed by the
identifier with suffix `-conversation-id`. -/
def storeLine (aname : String) : String :=
  "localStorage.setItem('" ++ aname ++ "-conversation-id', conversationId);"

/-- Guard of the URL-update block of the generated replacement. -/
def urlCondLine : String := "if (isFirstMessage) \x7b"

/-- Path fragment `/<identifier>/chat/` of the generated replacement. -/
def urlFrag (aname : String) : String := "/" ++ aname ++ "/chat/"

/-- Template-literal line building the new URL from the path fragment
concatenated with the captured `conversationId`. -/
def newUrlLine (aname : String) : String :=
  "const newUrl = `/" ++ aname ++ "/chat/$\x7bconversationId\x7d`;"

/-- History update call of the generated replacement. -/
def pushLine : String := "window.history.pushState(\x7b\x7d, '', newUrl);"

/-- Added diagnostic log line of the generated replacement. -/
def diagLine : String := "console.log('✓ Updated URL to:', newUrl);"

/-- All features the replacement must embed, as one boolean check. -/
def hasFeatures (aname : String) : Bool :=
  containsStr origLog1 (new_callback aname) &&
  containsStr origLog2 (new_callback aname) &&
  containsStr (storeLine aname) (new_callback aname) &&
  containsStr urlCondLine (new_callback aname) &&
  containsStr (newUrlLine aname) (new_callback aname) &&
  containsStr pushLine (new_callback aname) &&
  containsStr diagLine (new_callback aname)

/-- C4. On a content with exactly one match of the search pattern, the
substitution replaces exactly that block by the expanded callback and keeps
every other character unchanged; and for each of the three identifiers the
expanded callback embeds the original log lines, the storage write under
the key `<identifier>-conversation-id`, the `isFirstMessage` block building
`/<identifier>/chat/` concatenated with the captured id, the history
update, and the added diagnostic log line. -/
theorem single_occurrence_transform :
    (∀ aname : String, ∀ A B : List Char,
      countOcc old_literal.data (A ++ old_literal.data ++ B) = 1 →
      replaceAll old_literal.data (new_callback aname).data
          (A ++ old_literal.data ++ B)
        = A ++ (new_callback aname).data ++ B) ∧
    (∀ aname : String, hasFeatures aname = true →
      origLog1.data <:+: (new_callback aname).data ∧
      origLog2.data <:+: (new_callback aname).data ∧
      (storeLine aname).data <:+: (new_callback aname).data ∧
      urlCondLine.data <:+: (new_callback aname).data ∧
      (newUrlLine aname).data <:+: (new_callback aname).data ∧
      pushLine.data <:+: (new_callback aname).data ∧
      diagLine.data <:+: (new_callback aname).data) ∧
    hasFeatures gcId = true ∧ hasFeatures etgId = true ∧ hasFeatures ccId = true := by
  refine ⟨?_, ?_, by decide, by decide, by decide⟩
  · intro aname A B h
    exact replaceAll_single (new_callback aname).data old_literal_ne_nil A B h
  · intro aname h
    simp only [hasFeatures, Bool.and_eq_true] at h
    obtain ⟨⟨⟨⟨⟨⟨f1, f2⟩, f3⟩, f4⟩, f5⟩, f6⟩, f7⟩ := h
    exact ⟨containsStr_sound f1, containsStr_sound f2, containsStr_sound f3,
      containsStr_sound f4, containsStr_sound f5, containsStr_sound f6,
      containsStr_sound f7⟩

/-- Witness for C4: the content that is exactly one pattern occurrence is
mapped to exactly the replacement, and the `grant-cards` replacement embeds
its storage-key line. -/
theorem single_occurrence_transform_witness :
    replaceAll old_literal.data (new_callback gcId).data
        ([] ++ old_literal.data ++ [])
      = [] ++ (new_callback gcId).data ++ [] ∧
    (storeLine gcId).data <:+: (new_callback gcId).data := by
  have h := single_occurrence_transform
  exact ⟨h.1 gcId [] [] (by decide), (h.2.1 gcId h.2.2.1).2.2.1⟩

/-! ## C6: the replacement embeds the identifier-derived strings -/

def gcKey : String := "grant-cards-conversation-id"

def gcChat : String := "/grant-cards/chat/"

/-- C6. The replacement generated for identifier `grant-cards` literally
contains the substrings `grant-cards-conversation-id` and
`/grant-cards/chat/`. -/
theorem replacement_embeds_identifier_strings :
    gcKey.data <:+: (new_callback gcId).data ∧
    gcChat.data <:+: (new_callback gcId).data := by
  constructor
  · have h : containsStr gcKey (new_callback gcId) = true := by decide
    exact containsStr_sound h
  · have h : containsStr gcChat (new_callback gcId) = true := by decide
    exact containsStr_sound h

/-! ## C7: exact standard output of a successful run -/

def summaryLineText : String := "All files updated successfully!"

/-- Counterexample to C7 as stated: the output of a fully successful run is
not the three per-file lines followed directly by the summary line, because
the final print statement starts with an extra newline, producing a blank
line before the summary. -/
theorem output_format_exact_counterexample :
    stdoutOf (patchAll fsW).evs ≠
      fixedMsg gcPath ++ nlStr ++ fixedMsg etgPath ++ nlStr ++ fixedMsg ccPath ++ nlStr ++
        summaryLineText ++ nlStr := by
  decide

/-- C7 (amended). A fully successful run emits exactly one line per
processed file of the form `✓ Fixed onConnected callbacks in <file_path>`,
in list order, followed by a blank line and then the final line
`All files updated successfully!`. -/
theorem output_format_with_blank_line (fs : FS) (c1 c2 c3 : String)
    (h1 : readFS fs gcPath = some c1) (h2 : readFS fs etgPath = some c2)
    (h3 : readFS fs ccPath = some c3) :
    stdoutOf (patchAll fs).evs =
      fixedMsg gcPath ++ nlStr ++ fixedMsg etgPath ++ nlStr ++ fixedMsg ccPath ++ nlStr ++
        nlStr ++ summaryLineText ++ nlStr := by
  rw [patchAll_success fs c1 c2 c3 h1 h2 h3]
  show stdoutOf
      [Ev.read gcPath, Ev.write gcPath, Ev.print (fixedMsg gcPath),
       Ev.read etgPath, Ev.write etgPath, Ev.print (fixedMsg etgPath),
       Ev.read ccPath, Ev.write ccPath, Ev.print (fixedMsg ccPath),
       Ev.print summaryMsg] = _
  decide

/-- Witness for the amended C7 at a concrete filesystem. -/
theorem output_format_with_blank_line_witness :
    stdoutOf (patchAll fsW).evs =
      fixedMsg gcPath ++ nlStr ++ fixedMsg etgPath ++ nlStr ++ fixedMsg ccPath ++ nlStr ++
        nlStr ++ summaryLineText ++ nlStr :=
  output_format_with_blank_line fsW "x" "y" "z" (by decide) (by decide) (by decide)

/-! ## C8: the fixed batch invariant -/

theorem count_le_one_of_nodup {l : List String} (h : l.Nodup) :
    ∀ p, l.count p ≤ 1 :=
  List.nodup_iff_count_le_one.mp h

/-- C8. The list of targets is exactly the three hardcoded pairs; in every
run the paths read form a prefix of that list taken in order (so no other
file is ever read), the paths written are those same paths except possibly
the failing one (so no other file is ever written), and every path is read
at most once and written at most once. -/
theorem fixed_batch_invariant :
    files_and_names = [(gcPath, gcId), (etgPath, etgId), (ccPath, ccId)] ∧
    ∀ fs : FS, ∃ k, k ≤ 3 ∧
      readsOf (patchAll fs).evs = (files_and_names.map Prod.fst).take k ∧
      (writesOf (patchAll fs).evs = (files_and_names.map Prod.fst).take k ∨
        writesOf (patchAll fs).evs = (files_and_names.map Prod.fst).take (k - 1)) ∧
      (∀ p, (readsOf (patchAll fs).evs).count p ≤ 1) ∧
      (∀ p, (writesOf (patchAll fs).evs).count p ≤ 1) := by
  refine ⟨rfl, ?_⟩
  intro fs
  cases hr1 : readFS fs gcPath with
  | none =>
    rw [patchAll_halt1 fs hr1]
    refine ⟨1, by omega, ?_, Or.inr ?_, ?_, ?_⟩
    · show readsOf [Ev.read gcPath] = (files_and_names.map Prod.fst).take 1
      decide
    · show writesOf [Ev.read gcPath] = (files_and_names.map Prod.fst).take 0
      decide
    · intro p
      show List.count p (readsOf [Ev.read gcPath]) ≤ 1
      exact count_le_one_of_nodup (by decide) p
    · intro p
      show List.count p (writesOf [Ev.read gcPath]) ≤ 1
      exact count_le_one_of_nodup (by decide) p
  | some c1 =>
    cases hr2 : readFS fs etgPath with
    | none =>
      rw [patchAll_halt2 fs c1 hr1 hr2]
      refine ⟨2, by omega, ?_, Or.inr ?_, ?_, ?_⟩
      · show readsOf [Ev.read gcPath, Ev.write gcPath, Ev.print (fixedMsg gcPath),
          Ev.read etgPath] = (files_and_names.map Prod.fst).take 2
        decide
      · show writesOf [Ev.read gcPath, Ev.write gcPath, Ev.print (fixedMsg gcPath),
          Ev.read etgPath] = (files_and_names.map Prod.fst).take 1
        decide
      · intro p
        show List.count p (readsOf [Ev.read gcPath, Ev.write gcPath,
          Ev.print (fixedMsg gcPath), Ev.read etgPath]) ≤ 1
        exact count_le_one_of_nodup (by decide) p
      · intro p
        show List.count p (writesOf [Ev.read gcPath, Ev.write gcPath,
          Ev.print (fixedMsg gcPath), Ev.read etgPath]) ≤ 1
        exact count_le_one_of_nodup (by decide) p
    | some c2 =>
      cases hr3 : readFS fs ccPath with
      | none =>
        rw [patchAll_halt3 fs c1 c2 hr1 hr2 hr3]
        refine ⟨3, by omega, ?_, Or.inr ?_, ?_, ?_⟩
        · show readsOf [Ev.read gcPath, Ev.write gcPath, Ev.print (fixedMsg gcPath),
            Ev.read etgPath, Ev.write etgPath, Ev.print (fixedMsg etgPath),
            Ev.read ccPath] = (files_and_names.map Prod.fst).take 3
          decide
        · show writesOf [Ev.read gcPath, Ev.write gcPath, Ev.print (fixedMsg gcPath),
            Ev.read etgPath, Ev.write etgPath, Ev.print (fixedMsg etgPath),
            Ev.read ccPath] = (files_and_names.map Prod.fst).take 2
          decide
        · intro p
          show List.count p (readsOf [Ev.read gcPath, Ev.write gcPath,
            Ev.print (fixedMsg gcPath), Ev.read etgPath, Ev.write etgPath,
            Ev.print (fixedMsg etgPath), Ev.read ccPath]) ≤ 1
          exact count_le_one_of_nodup (by decide) p
        · intro p
          show List.count p (writesOf [Ev.read gcPath, Ev.write gcPath,
            Ev.print (fixedMsg gcPath), Ev.read etgPath, Ev.write etgPath,
            Ev.print (fixedMsg etgPath), Ev.read ccPath]) ≤ 1
          exact count_le_one_of_nodup (by decide) p
      | some c3 =>
        rw [patchAll_success fs c1 c2 c3 hr1 hr2 hr3]
        refine ⟨3, by omega, ?_, Or.inl ?_, ?_, ?_⟩
        · show readsOf [Ev.read gcPath, Ev.write gcPath, Ev.print (fixedMsg gcPath),
            Ev.read etgPath, Ev.write etgPath, Ev.print (fixedMsg etgPath),
            Ev.read ccPath, Ev.write ccPath, Ev.print (fixedMsg ccPath),
            Ev.print summaryMsg] = (files_and_names.map Prod.fst).take 3
          decide
        · show writesOf [Ev.read gcPath, Ev.write gcPath, Ev.print (fixedMsg gcPath),
            Ev.read etgPath, Ev.write etgPath, Ev.print (fixedMsg etgPath),
            Ev.read ccPath, Ev.write ccPath, Ev.print (fixedMsg ccPath),
            Ev.print summaryMsg] = (files_and_names.map Prod.fst).take 3
          decide
        · intro p
          show List.count p (readsOf [Ev.read gcPath, Ev.write gcPath,
            Ev.print (fixedMsg gcPath), Ev.read etgPath, Ev.write etgPath,
            Ev.print (fixedMsg etgPath), Ev.read ccPath, Ev.write ccPath,
            Ev.print (fixedMsg ccPath), Ev.print summaryMsg]) ≤ 1
          exact count_le_one_of_nodup (by decide) p
        · intro p
          show List.count p (writesOf [Ev.read gcPath, Ev.write gcPath,
            Ev.print (fixedMsg gcPath), Ev.read etgPath, Ev.write etgPath,
            Ev.print (fixedMsg etgPath), Ev.read ccPath, Ev.write ccPath,
            Ev.print (fixedMsg ccPath), Ev.print summaryMsg]) ≤ 1
          exact count_le_one_of_nodup (by decide) p

/-! ## C9: the replacement template is inserted verbatim -/

theorem old_pattern_compiles :
    literalOfPattern old_pattern_src.data = some old_literal.data := by
  decide

/-- C9. For each of the three identifiers the replacement template contains
no backslash, so the modeled `re.sub` interprets none of it (not the `$`,
backticks or braces) as a replacement escape: on every input content the
substitution inserts exactly the interpolated template, i.e. it agrees with
plain global replacement of the compiled literal pattern by the template. -/
theorem substitution_inserts_template_verbatim :
    literalOfPattern old_pattern_src.data = some old_literal.data ∧
    expandTmpl (new_callback gcId).data = some (new_callback gcId).data ∧
    expandTmpl (new_callback etgId).data = some (new_callback etgId).data ∧
    expandTmpl (new_callback ccId).data = some (new_callback ccId).data ∧
    ∀ s : List Char,
      reSub old_pattern_src.data (new_callback gcId).data s
          = some (replaceAll old_literal.data (new_callback gcId).data s) ∧
      reSub old_pattern_src.data (new_callback etgId).data s
          = some (replaceAll old_literal.data (new_callback etgId).data s) ∧
      reSub old_pattern_src.data (new_callback ccId).data s
          = some (replaceAll old_literal.data (new_callback ccId).data s) := by
  have hgc : expandTmpl (new_callback gcId).data = some (new_callback gcId).data := by
    decide
  have hetg : expandTmpl (new_callback etgId).data = some (new_callback etgId).data := by
    decide
  have hcc : expandTmpl (new_callback ccId).data = some (new_callback ccId).data := by
    decide
  have hne : old_literal.data.isEmpty = false := by decide
  refine ⟨old_pattern_compiles, hgc, hetg, hcc, ?_⟩
  intro s
  refine ⟨?_, ?_, ?_⟩
  · simp only [reSub, old_pattern_compiles, hgc, hne, Bool.false_eq_true, if_false]
  · simp only [reSub, old_pattern_compiles, hetg, hne, Bool.false_eq_true, if_false]
  · simp only [reSub, old_pattern_compiles, hcc, hne, Bool.false_eq_true, if_false]

/-! ## C10: matching is sensitive to the exact indentation -/

def spaceChar : Char := ' '

def newlineChar : Char := '\n'

/-- Split a character list at newline characters. -/
def splitLines : List Char → List (List Char)
  | [] => [[]]
  | c :: rest =>
    if c = newlineChar then [] :: splitLines rest
    else
      match splitLines rest with
      | [] => [[c]]
      | l :: ls => (c :: l) :: ls

def indent16 : String := "                "

def spaces (k : Nat) : String := String.mk (List.replicate k spaceChar)

def cbLine1 : String := "chatClient.onConnected = (data) => \x7b\n"
def cbLine2 : String := "console.log('✓ Connected to agent:', data);\n"
def cbLine3 : String := "// Capture conversationId from backend\n"
def cbLine4 : String := "if (data.conversationId && !conversationId) \x7b\n"
def cbLine5 : String := "conversationId = data.conversationId;\n"
def cbLine6 : String :=
  "console.log('✓ Captured conversationId from backend:', conversationId);\n"
def cbLine7 : String := "\x7d\n"
def cbLine8 : String := "\x7d;"

/-- The callback text re-indented with base indentation `k`, keeping the
relative indentation of its lines. -/
def callbackAt (k : Nat) : String :=
  spaces k ++ cbLine1 ++ spaces (k + 4) ++ cbLine2 ++ spaces (k + 4) ++ cbLine3 ++
  spaces (k + 4) ++ cbLine4 ++ spaces (k + 8) ++ cbLine5 ++ spaces (k + 8) ++ cbLine6 ++
  spaces (k + 4) ++ cbLine7 ++ spaces k ++ cbLine8

/-- C10. The pattern compiles to the literal callback text whose base
indentation is exactly 16 spaces, every line of it carrying at least the
16-space literal leading whitespace; any content in which that exact
literal does not occur is left unchanged by the substitution; in
particular the same callback text re-indented (base 12 instead of 16)
matches nowhere and is written back unchanged. -/
theorem indentation_sensitive_matching :
    literalOfPattern old_pattern_src.data = some old_literal.data ∧
    callbackAt 16 = old_literal ∧
    ((splitLines old_literal.data).all fun l => isPref indent16.data l) = true ∧
    (∀ content : List Char, countOcc old_literal.data content = 0 →
      replaceAll old_literal.data (new_callback gcId).data content = content) ∧
    countOcc old_literal.data (callbackAt 12).data = 0 ∧
    replaceAll old_literal.data (new_callback gcId).data (callbackAt 12).data
      = (callbackAt 12).data := by
  have hnoop : ∀ content : List Char, countOcc old_literal.data content = 0 →
      replaceAll old_literal.data (new_callback gcId).data content = content := by
    intro content h
    exact replaceAll_eq_self _ _ content (not_infix_of_countOcc_zero old_literal_ne_nil h)
  have h12 : countOcc old_literal.data (callbackAt 12).data = 0 := by decide
  exact ⟨old_pattern_compiles, by decide, by decide, hnoop, h12, hnoop _ h12⟩

/-- Witness for C10 at another re-indentation (base 20 instead of 16). -/
theorem indentation_sensitive_matching_witness :
    countOcc old_literal.data (callbackAt 20).data = 0 ∧
    replaceAll old_literal.data (new_callback gcId).data (callbackAt 20).data
      = (callbackAt 20).data := by
  have h20 : countOcc old_literal.data (callbackAt 20).data = 0 := by decide
  exact ⟨h20, (indentation_sensitive_matching).2.2.2.1 (callbackAt 20).data h20⟩
